import Mathlib

/-!
# Verification of the groupCluster player-clustering pipeline

Shallow embedding of the feature-encoding → scaling → cluster-assignment
pipeline of the repository (src/train.py, src/api.py, src/api1.py,
src/api2.py, src/api3.py), together with theorems settling the frozen
claims about it.

Conventions:
* numeric values are rationals (`ℚ`);
* a feature vector is a `List ℚ` (the serving code concatenates python
  lists / 1-d numpy arrays);
* the KMeans convergence development (claim about training) uses
  fixed-width vectors `Fin d → ℚ`, matching the n×d training matrix;
* behaviour of the scikit-learn objects called by the repository
  (MultiLabelBinarizer.transform, StandardScaler.transform,
  KMeans.predict / KMeans.fit) is not part of src/; those definitions
  are modelled from the spec, and are marked as such.
-/

namespace GroupCluster

/-! ## Data model -/

/-- An incoming player profile, as read out of the request JSON by
`cluster_player` (src/api.py lines 26–34): the three categorical list
fields and the level are accessed with `d[...]` (required), while
`rank`, `maxBudgetPerSession` and `travelDistance` use `.get(..., 0)`
(optional, defaulting to 0). -/
structure Profile where
  level : String
  rank : Option ℚ
  budget : Option ℚ
  travel : Option ℚ
  desiredServices : List String
  goals : List String
  languages : List String
  deriving Repr, DecidableEq

/-- The three frozen vocabularies learned at training time
(`encoders.pkl`: the fitted `classes_` of the three
MultiLabelBinarizers of src/train.py lines 11–18). -/
structure Vocab where
  services : List String
  goals : List String
  languages : List String
  deriving Repr, DecidableEq

/-- Width of the assembled feature vector:
4 numeric fields plus one bit per vocabulary entry (spec §3). -/
def featureLen (V : Vocab) : Nat :=
  4 + V.services.length + V.goals.length + V.languages.length

/-! ## FeatureEncoder -/

/-- The fixed six-entry level table, `levels_map` of src/train.py
lines 20–27 and src/api.py lines 12–19 (identical literals). -/
def levels_map : List (String × ℚ) :=
  [("beginner", 1), ("recreational", 2), ("high school player", 3),
   ("college player", 4), ("tournament player", 5), ("professional", 6)]

/-- Serving-side ordinal level encoding:
`levels_map.get(d["level"], 1)` (src/api.py line 31). -/
def levelServe (s : String) : ℚ :=
  (levels_map.lookup s).getD 1

/-- Training-side ordinal level encoding:
`data["level"].map(levels_map)` (src/train.py line 28, `None` for an
unknown key) followed by `.fillna(1)` (src/train.py line 35). -/
def levelTrain (s : String) : ℚ :=
  ((levels_map.lookup s)).getD 1

/-- Modelled from the spec: `MultiLabelBinarizer.transform([values])[0]`
with fitted classes `vocab` (called at src/api.py lines 26–28 and fitted
at src/train.py lines 11–18; the sklearn implementation is not part of
src/). Per spec §4.1: one bit per vocabulary entry, in vocabulary
order, set iff the entry occurs among the values; values outside the
vocabulary are silently ignored. -/
def encodeMultiHot (vocab : List String) (values : List String) : List ℚ :=
  vocab.map (fun v => if v ∈ values then (1 : ℚ) else 0)

/-- The serving-side feature vector: `np.concatenate([[rank, budget,
travel, level], services_encoded[0], goals_encoded[0], lang_encoded[0]])`
(src/api.py lines 31–39). -/
def assembleServe (p : Profile) (V : Vocab) : List ℚ :=
  [p.rank.getD 0, p.budget.getD 0, p.travel.getD 0, levelServe p.level]
    ++ encodeMultiHot V.services p.desiredServices
    ++ encodeMultiHot V.goals p.goals
    ++ encodeMultiHot V.languages p.languages

/-- One row of the training-side feature matrix `X = np.concatenate(
[features.values, services_encoded, goals_encoded, langs_encoded],
axis=1)` (src/train.py lines 31–42): the numeric block applies
`.fillna(0)` to rank/budget/travel and `.fillna(1)` to the mapped
level, then the three multi-hot blocks follow. -/
def assembleTrain (p : Profile) (V : Vocab) : List ℚ :=
  [p.rank.getD 0, p.budget.getD 0, p.travel.getD 0, levelTrain p.level]
    ++ encodeMultiHot V.services p.desiredServices
    ++ encodeMultiHot V.goals p.goals
    ++ encodeMultiHot V.languages p.languages

/-! ## Claims C1, C5, C6 -/

/-- C1: for every profile, the feature vector built at training time and
the one built at serving time are identical — both concatenate
[rank, budget, travel, levelOrdinal] and then the services, goals and
languages multi-hot blocks — and both have length
4 + |servicesVocab| + |goalsVocab| + |languagesVocab|. -/
theorem train_serve_feature_parity (p : Profile) (V : Vocab) :
    assembleTrain p V = assembleServe p V ∧
    (assembleServe p V).length = featureLen V ∧
    (assembleTrain p V).length = featureLen V := by
  refine ⟨rfl, ?_, ?_⟩ <;>
    simp [assembleServe, assembleTrain, encodeMultiHot, featureLen,
      levelServe, levelTrain]
  · ring
  · ring

/-- C5: the multi-hot encoding emits, for each vocabulary entry in
vocabulary order, 1 if the entry is present among the values and 0
otherwise; its length is the vocabulary length whatever the values are;
values outside the vocabulary are silently ignored (appending them
changes nothing), and a value set disjoint from the vocabulary encodes
to the all-zero vector — e.g. one unknown value against a 3-entry
vocabulary yields [0, 0, 0]. -/
theorem encodeMultiHot_spec (vocab values : List String) :
    (encodeMultiHot vocab values).length = vocab.length ∧
    (∀ i : Fin vocab.length,
      (encodeMultiHot vocab values).getD i 0 =
        if vocab.get i ∈ values then 1 else 0) ∧
    (∀ extra : List String, (∀ z ∈ extra, z ∉ vocab) →
      encodeMultiHot vocab (values ++ extra) = encodeMultiHot vocab values) ∧
    ((∀ z ∈ values, z ∉ vocab) →
      encodeMultiHot vocab values = List.replicate vocab.length 0) := by
  refine ⟨by simp [encodeMultiHot], ?_, ?_, ?_⟩
  · intro i
    simp [encodeMultiHot, List.getD_eq_getElem?_getD, List.getElem?_map,
      List.getElem?_eq_getElem i.isLt]
  · intro extra hextra
    unfold encodeMultiHot
    refine List.map_congr_left ?_
    intro v hv
    have : (v ∈ values ++ extra) ↔ v ∈ values := by
      simp only [List.mem_append, or_iff_left_iff_imp]
      intro hvx
      exact absurd hv (hextra v hvx)
    simp [this]
  · intro hdisj
    unfold encodeMultiHot
    rw [List.eq_replicate_iff]
    refine ⟨by simp, ?_⟩
    intro b hb
    rcases List.mem_map.mp hb with ⟨v, hv, hvb⟩
    have : v ∉ values := fun hvv => hdisj v hvv hv
    simpa [this] using hvb.symm

/-- Concrete instance of C5's examples: vocabulary [A, B, C] with values
[B] encodes to [0, 1, 0], and the unknown value Z encodes to [0, 0, 0]. -/
theorem encodeMultiHot_spec_witness :
    (∀ z ∈ ["Z"], z ∉ ["A", "B", "C"]) ∧
    encodeMultiHot ["A", "B", "C"] ["Z"] = List.replicate 3 0 ∧
    encodeMultiHot ["A", "B", "C"] ["B"] = [0, 1, 0] := by
  refine ⟨by decide, ?_, by decide⟩
  exact (encodeMultiHot_spec ["A", "B", "C"] ["Z"]).2.2.2 (by decide)

/-- C6: the ordinal level encoding maps the six known levels through the
fixed table {beginner:1, recreational:2, high school player:3,
college player:4, tournament player:5, professional:6}; every other
input yields 1; training (`map` + `fillna(1)`) and serving
(`dict.get(level, 1)`) agree on every input string. -/
theorem level_encoding_spec (s : String) :
    levelTrain s = levelServe s ∧
    levelServe "beginner" = 1 ∧ levelServe "recreational" = 2 ∧
    levelServe "high school player" = 3 ∧ levelServe "college player" = 4 ∧
    levelServe "tournament player" = 5 ∧ levelServe "professional" = 6 ∧
    (s ∉ (levels_map.map Prod.fst) → levelServe s = 1) := by
  refine ⟨rfl, by decide, by decide, by decide, by decide, by decide, by decide, ?_⟩
  intro hs
  simp only [levels_map, List.map, List.mem_cons, List.not_mem_nil, or_false,
    not_or] at hs
  obtain ⟨h1, h2, h3, h4, h5, h6⟩ := hs
  simp [levelServe, levels_map, List.lookup, beq_eq_false_iff_ne.mpr h1,
    beq_eq_false_iff_ne.mpr h2, beq_eq_false_iff_ne.mpr h3,
    beq_eq_false_iff_ne.mpr h4, beq_eq_false_iff_ne.mpr h5,
    beq_eq_false_iff_ne.mpr h6]

/-- C6 at a concrete unknown input: "expert" is not in the table and
encodes to 1 on both paths. -/
theorem level_encoding_spec_witness :
    ("expert" ∉ (levels_map.map Prod.fst)) ∧ levelServe "expert" = 1 := by
  refine ⟨by decide, (level_encoding_spec "expert").2.2.2.2.2.2.2 (by decide)⟩

/-! ## ClusterModel: nearest-centroid assignment -/

/-- Squared Euclidean distance between two vectors given as lists
(zip-truncating; the serving code only ever compares equal-width
vectors, enforced by the dimension checks below). -/
def sqDist (a b : List ℚ) : ℚ :=
  (List.zipWith (fun x y => (x - y) ^ 2) a b).sum

/-- First-occurrence argmin loop: scans the remaining values with the
running index `i` and the best (index, value) pair so far, replacing
the best only on a strict improvement. -/
def argLoop : List ℚ → Nat → Nat × ℚ → Nat × ℚ
  | [], _, acc => acc
  | a :: rest, i, (b, bd) =>
      if a < bd then argLoop rest (i + 1) (i, a)
      else argLoop rest (i + 1) (b, bd)

/-- Index of the first minimum of a list of values (`np.argmin`
semantics; 0 on the empty list). -/
def listArgmin (l : List ℚ) : Nat :=
  match l with
  | [] => 0
  | a :: rest => (argLoop rest 1 (0, a)).1

/-- Modelled from the spec: `model.predict(X_scaled)` for a fitted
KMeans model (src/api.py line 43; the sklearn implementation is not
part of src/). Per spec §4.4, serving assignment returns the index of
the centroid minimizing squared Euclidean distance, ties broken by
lowest index. -/
def assign (v : List ℚ) (cs : List (List ℚ)) : Nat :=
  listArgmin (cs.map (sqDist v))

/-- Invariant of the argmin loop, phrased against the full list `l`
of which `rest` is the yet-unscanned suffix. -/
lemma argLoop_spec (rest : List ℚ) :
    ∀ (l : List ℚ) (i b : Nat) (bd : ℚ),
    rest = l.drop i → b < i → i ≤ l.length → l.getD b 0 = bd →
    (∀ j, j < i → bd ≤ l.getD j 0) →
    (∀ j, j < b → bd < l.getD j 0) →
    (argLoop rest i (b, bd)).1 < l.length ∧
    l.getD (argLoop rest i (b, bd)).1 0 = (argLoop rest i (b, bd)).2 ∧
    (∀ j, j < l.length → (argLoop rest i (b, bd)).2 ≤ l.getD j 0) ∧
    (∀ j, j < (argLoop rest i (b, bd)).1 →
      (argLoop rest i (b, bd)).2 < l.getD j 0) := by
  induction rest with
  | nil =>
      intro l i b bd hdrop hb hi hval hmin hstrict
      have hi' : l.length ≤ i := by
        by_contra hlt
        push_neg at hlt
        have : l.drop i ≠ [] := by
          simp [List.drop_eq_nil_iff]
          omega
        exact this hdrop.symm
      have hieq : i = l.length := le_antisymm hi hi'
      subst hieq
      exact ⟨hb, hval, fun j hj => hmin j hj, fun j hj => hstrict j hj⟩
  | cons a rest ih =>
      intro l i b bd hdrop hb hi hval hmin hstrict
      have hilt : i < l.length := by
        by_contra hge
        push_neg at hge
        have : l.drop i = [] := List.drop_eq_nil_iff.mpr hge
        rw [this] at hdrop
        exact List.cons_ne_nil a rest hdrop
      have hcons : l.drop i = l[i] :: l.drop (i + 1) :=
        List.drop_eq_getElem_cons hilt
      rw [hcons] at hdrop
      obtain ⟨ha', hrest'⟩ := (List.cons.injEq _ _ _ _).mp hdrop
      have ha : a = l.getD i 0 := by
        rw [ha', List.getD_eq_getElem?_getD, List.getElem?_eq_getElem hilt]
        rfl
      have hrest : rest = l.drop (i + 1) := hrest'
      by_cases hc : a < bd
      · rw [show argLoop (a :: rest) i (b, bd) = argLoop rest (i + 1) (i, a) by
          simp [argLoop, hc]]
        refine ih l (i + 1) i a hrest (by omega) (by omega) ha.symm ?_ ?_
        · intro j hj
          rcases Nat.lt_succ_iff_lt_or_eq.mp hj with hj' | hj'
          · calc a ≤ bd := le_of_lt hc
              _ ≤ l.getD j 0 := hmin j hj'
          · subst hj'; exact le_of_eq ha
        · intro j hj
          calc a < bd := hc
            _ ≤ l.getD j 0 := hmin j (by omega)
      · rw [show argLoop (a :: rest) i (b, bd) = argLoop rest (i + 1) (b, bd) by
          simp [argLoop, hc]]
        refine ih l (i + 1) b bd hrest (by omega) (by omega) hval ?_ hstrict
        intro j hj
        rcases Nat.lt_succ_iff_lt_or_eq.mp hj with hj' | hj'
        · exact hmin j hj'
        · subst hj'
          rw [← ha]
          exact le_of_not_lt hc

/-- Specification of `listArgmin` on a non-empty list: the result is a
valid index attaining the minimum value, and every earlier index holds a
strictly larger value. -/
lemma listArgmin_spec (l : List ℚ) (h : l ≠ []) :
    listArgmin l < l.length ∧
    (∀ j, j < l.length → l.getD (listArgmin l) 0 ≤ l.getD j 0) ∧
    (∀ j, j < listArgmin l → l.getD (listArgmin l) 0 < l.getD j 0) := by
  match l with
  | [] => exact absurd rfl h
  | a :: rest =>
      have h0 : (a :: rest).getD 0 0 = a := rfl
      have := argLoop_spec rest (a :: rest) 1 0 a rfl (by omega)
        (Nat.succ_le_succ (Nat.zero_le rest.length)) h0
        (fun j hj => by interval_cases j; simp [h0])
        (fun j hj => absurd hj (Nat.not_lt_zero j))
      obtain ⟨h1, h2, h3, h4⟩ := this
      refine ⟨h1, ?_, ?_⟩
      · intro j hj
        rw [show listArgmin (a :: rest) = (argLoop rest 1 (0, a)).1 from rfl, h2]
        exact h3 j hj
      · intro j hj
        rw [show listArgmin (a :: rest) = (argLoop rest 1 (0, a)).1 from rfl, h2]
        exact h4 j hj

/-- Transport: the distance list evaluated at an in-range index. -/
lemma distList_getD (v : List ℚ) (cs : List (List ℚ)) (j : Nat)
    (hj : j < cs.length) :
    (cs.map (sqDist v)).getD j 0 = sqDist v (cs.getD j []) := by
  rw [List.getD_eq_getElem?_getD, List.getD_eq_getElem?_getD,
    List.getElem?_map, List.getElem?_eq_getElem hj]
  rfl

/-- C2: for every scaled vector and non-empty centroid list, `assign`
returns a valid index in 0..k-1 whose centroid minimizes squared
Euclidean distance to the vector, and every centroid of strictly lower
index is strictly farther (ties resolve to the lowest index).
Determinism is immediate: `assign` is a pure function. -/
theorem assign_nearest (v : List ℚ) (cs : List (List ℚ)) (h : cs ≠ []) :
    assign v cs < cs.length ∧
    (∀ j, j < cs.length → sqDist v (cs.getD (assign v cs) []) ≤ sqDist v (cs.getD j [])) ∧
    (∀ j, j < assign v cs → sqDist v (cs.getD (assign v cs) []) < sqDist v (cs.getD j [])) := by
  have hne : cs.map (sqDist v) ≠ [] := by
    intro hc
    exact h (List.map_eq_nil_iff.mp hc)
  unfold assign
  obtain ⟨h1, h2, h3⟩ := listArgmin_spec (cs.map (sqDist v)) hne
  rw [List.length_map] at h1
  refine ⟨h1, ?_, ?_⟩
  · intro j hj
    have := h2 j (by rw [List.length_map]; exact hj)
    rwa [distList_getD v cs _ h1, distList_getD v cs j hj] at this
  · intro j hj
    have := h3 j hj
    rwa [distList_getD v cs _ h1, distList_getD v cs j (lt_trans hj h1)] at this

/-- C2 at the spec's end-to-end example: centroids C0 = [0,0,0,0] and
C1 = [5,5,5,5] with v = [4.9, 4.9, 5, 5]; the assignment is cluster 1,
a valid index, and C1 is the unique nearest centroid. -/
theorem assign_nearest_witness :
    ([[0, 0, 0, 0], [(5 : ℚ), 5, 5, 5]] ≠ ([] : List (List ℚ))) ∧
    assign [(49 : ℚ)/10, 49/10, 5, 5] [[0, 0, 0, 0], [5, 5, 5, 5]] = 1 ∧
    assign [(49 : ℚ)/10, 49/10, 5, 5] [[0, 0, 0, 0], [5, 5, 5, 5]] <
      [[(0 : ℚ), 0, 0, 0], [5, 5, 5, 5]].length := by
  refine ⟨by simp, ?_, ?_⟩
  · norm_num [assign, listArgmin, argLoop, sqDist]
  · exact (assign_nearest [(49 : ℚ)/10, 49/10, 5, 5]
      [[0, 0, 0, 0], [5, 5, 5, 5]] (by simp)).1

/-! ## Scaler -/

/-- Modelled from the spec: `scaler.transform(X)` of a fitted
StandardScaler, one row (src/api.py line 42, fitted at src/train.py
lines 45–46; the sklearn implementation is not part of src/). Per spec
§4.3: per dimension `(x - mean) / std`, with `std := 1` substituted for
any dimension whose training standard deviation is zero, so no division
error can occur. -/
def transform : List ℚ → List ℚ → List ℚ → List ℚ
  | x :: xs, m :: ms, s :: ss =>
      (x - m) / (if s = 0 then 1 else s) :: transform xs ms ss
  | _, _, _ => []

/-- The transform's width is the common width of its inputs. -/
lemma transform_length (v m s : List ℚ) :
    (transform v m s).length = min v.length (min m.length s.length) := by
  induction v generalizing m s with
  | nil => cases m <;> cases s <;> simp [transform]
  | cons x xs ih =>
      cases m with
      | nil => simp [transform]
      | cons m0 ms =>
          cases s with
          | nil => simp [transform]
          | cons s0 ss =>
              simp only [transform, List.length_cons, ih]
              omega

/-- Elementwise value of the transform at any in-range dimension. -/
lemma transform_getD (v mean std : List ℚ) (i : Nat) :
    i < v.length → i < mean.length → i < std.length →
    (transform v mean std).getD i 0 =
      (v.getD i 0 - mean.getD i 0) /
        (if std.getD i 0 = 0 then 1 else std.getD i 0) := by
  induction v generalizing mean std i with
  | nil => intro hv _ _; exact absurd hv (Nat.not_lt_zero i)
  | cons x xs ih =>
      intro hv hm hs
      cases mean with
      | nil => exact absurd hm (Nat.not_lt_zero i)
      | cons m0 ms =>
          cases std with
          | nil => exact absurd hs (Nat.not_lt_zero i)
          | cons s0 ss =>
              cases i with
              | zero => simp [transform]
              | succ n =>
                  have := ih ms ss n (by simpa using hv) (by simpa using hm)
                    (by simpa using hs)
                  simpa [transform] using this

/-- Transforming the training mean by its own parameters gives zero in
every dimension. -/
lemma transform_mean (mean std : List ℚ) (h : mean.length = std.length) :
    transform mean mean std = List.replicate mean.length 0 := by
  induction mean generalizing std with
  | nil => simp [transform]
  | cons m0 ms ih =>
      cases std with
      | nil => exact absurd h (by simp)
      | cons s0 ss =>
          have hlen : ms.length = ss.length := by simpa using h
          simp [transform, List.replicate_succ, ih ss hlen]

/-- C4: the scaler transform computes `(x - mean) / std` per dimension,
substituting `std := 1` (so yielding `x - mean`) for every dimension
whose training standard deviation is zero — hence never divides by
zero — and, consequently, transforming the training mean vector itself
yields the all-zero vector. -/
theorem transform_spec (v mean std : List ℚ) (h : mean.length = std.length) :
    (∀ i, i < v.length → i < mean.length → i < std.length →
      (transform v mean std).getD i 0 =
        (v.getD i 0 - mean.getD i 0) /
          (if std.getD i 0 = 0 then 1 else std.getD i 0) ∧
      (if std.getD i 0 = 0 then (1 : ℚ) else std.getD i 0) ≠ 0) ∧
    transform mean mean std = List.replicate mean.length 0 := by
  refine ⟨fun i hv hm hs => ⟨transform_getD v mean std i hv hm hs, ?_⟩,
    transform_mean mean std h⟩
  by_cases hz : std.getD i 0 = 0
  · rw [if_pos hz]; exact one_ne_zero
  · rw [if_neg hz]; exact hz

/-- C4 instantiated: with mean = [3, 7] and std = [2, 0] (one degenerate
dimension), the formula holds on input [5, 9] — dimension 1 divides by
the substituted 1 — and scaling the mean itself gives [0, 0]. -/
theorem transform_spec_witness :
    ([(3 : ℚ), 7].length = [(2 : ℚ), 0].length) ∧
    transform [(5 : ℚ), 9] [3, 7] [2, 0] = [1, 2] ∧
    transform [(3 : ℚ), 7] [3, 7] [2, 0] = List.replicate 2 0 := by
  refine ⟨rfl, by norm_num [transform], ?_⟩
  exact (transform_spec [(5 : ℚ), 9] [3, 7] [2, 0] rfl).2

/-! ## ArtifactStore and the serving pipeline -/

/-- The artifact bundle loaded at process start: the three
vocabularies (`encoders.pkl`), the scaler's per-dimension mean and std
(`scaler.pkl`) and the k centroid vectors (`player_cluster_model.pkl`)
(src/api.py lines 8–10). -/
structure Bundle where
  vocab : Vocab
  mean : List ℚ
  std : List ℚ
  centroids : List (List ℚ)
  deriving Repr, DecidableEq

/-- Artifact loading as src/api.py lines 8–10 perform it: three
`joblib.load` calls and nothing else — no cross-artifact dimension
validation of any kind, so loading succeeds on every bundle,
consistent or not. -/
def loadArtifacts (b : Bundle) : Except String Bundle :=
  Except.ok b

/-- Modelled from the spec: the input-width validation sklearn performs
inside `scaler.transform(X)` (src/api.py line 42; the sklearn
implementation is not part of src/): a vector whose width differs from
the fitted mean/std width raises, which the endpoint's `except` turns
into an error response; otherwise the scaled vector is returned. -/
def transformChecked (mean std v : List ℚ) : Except String (List ℚ) :=
  if v.length = mean.length ∧ v.length = std.length then
    Except.ok (transform v mean std)
  else
    Except.error "DimensionMismatch: X has a different width than the scaler"

/-- Modelled from the spec: the input-width validation sklearn performs
inside `model.predict(X_scaled)` (src/api.py line 43; the sklearn
implementation is not part of src/): a vector whose width differs from
the centroid width raises; otherwise the nearest-centroid index is
returned. -/
def predictChecked (cs : List (List ℚ)) (v : List ℚ) : Except String Nat :=
  if cs ≠ [] ∧ ∀ c ∈ cs, c.length = v.length then
    Except.ok (assign v cs)
  else
    Except.error "DimensionMismatch: X has a different width than the centroids"

/-- The `/cluster-player` pipeline of src/api.py lines 24–47: assemble
the feature vector, scale it, assign the nearest centroid; any raised
exception becomes an error response (HTTP 400) for that request only. -/
def clusterPlayer (b : Bundle) (p : Profile) : Except String Nat := do
  let scaled ← transformChecked b.mean b.std (assembleServe p b.vocab)
  predictChecked b.centroids scaled

/-- A concretely inconsistent bundle: the vocabularies yield feature
width 4 + 1 + 1 + 1 = 7 and mean/std have width 7, but the single
centroid has width 3. -/
def badBundle : Bundle :=
  ⟨⟨["a"], ["b"], ["c"]⟩, List.replicate 7 0, List.replicate 7 1, [[0, 0, 0]]⟩

/-- C7 fails on the code: loading an artifact bundle whose centroid
width (3) differs from the vocabulary-derived feature width (7)
succeeds — src/api.py lines 8–10 validate nothing at load time, so the
process does not refuse to serve with an inconsistent bundle. -/
theorem load_accepts_mismatched_bundle :
    (badBundle.centroids.getD 0 []).length ≠ featureLen badBundle.vocab ∧
    loadArtifacts badBundle = Except.ok badBundle := by
  exact ⟨by decide, rfl⟩

/-- C7 amended: no dimension validation happens at load time — every
bundle, consistent or not, loads successfully — and an inconsistent
bundle instead surfaces as a per-request error: whenever the assembled
feature width disagrees with the scaler's mean/std width, or with any
centroid's width (or the centroid list is empty), `cluster_player`
answers that request with an error response. -/
theorem load_defers_dimension_error (b : Bundle) (p : Profile) :
    loadArtifacts b = Except.ok b ∧
    (¬((assembleServe p b.vocab).length = b.mean.length ∧
       (assembleServe p b.vocab).length = b.std.length) →
      ∃ e, clusterPlayer b p = Except.error e) ∧
    ((assembleServe p b.vocab).length = b.mean.length →
     (assembleServe p b.vocab).length = b.std.length →
     ¬(b.centroids ≠ [] ∧
        ∀ c ∈ b.centroids, c.length = (assembleServe p b.vocab).length) →
      ∃ e, clusterPlayer b p = Except.error e) := by
  refine ⟨rfl, ?_, ?_⟩
  · intro hmm
    unfold clusterPlayer transformChecked
    rw [if_neg hmm]
    exact ⟨_, rfl⟩
  · intro hm hs hc
    unfold clusterPlayer transformChecked
    rw [if_pos ⟨hm, hs⟩]
    have hlen : (transform (assembleServe p b.vocab) b.mean b.std).length =
        (assembleServe p b.vocab).length := by
      rw [transform_length, ← hm, ← hs]
      omega
    show ∃ e, predictChecked b.centroids _ = Except.error e
    unfold predictChecked
    rw [if_neg (by rw [hlen]; exact hc)]
    exact ⟨_, rfl⟩

/-- C7's amended claim at the concrete mismatched bundle: the feature
width is 7, matching the scaler, while the lone centroid has width 3,
so the request (not the load) fails. -/
theorem load_defers_dimension_error_witness :
    ∃ e, clusterPlayer badBundle
      ⟨"beginner", none, none, none, [], [], []⟩ = Except.error e := by
  exact (load_defers_dimension_error badBundle
    ⟨"beginner", none, none, none, [], [], []⟩).2.2
    (by decide) (by decide) (by decide)

/-! ## RecommendationIndex -/

/-- One row of the merged serving dataset (src/api1.py lines 14–21):
the projected columns `id`, `level`, `rank`, `maxBudgetPerSession`
together with the persisted `cluster` column (−1 when the cluster file
failed to load). -/
structure StoredPlayer where
  id : String
  level : String
  rank : ℚ
  budget : ℚ
  cluster : ℤ
  deriving Repr, DecidableEq

/-- The recommendation lookup of src/api1.py lines 58–63:
`data[data["cluster"] == cluster].head(5)` — the stored rows whose
persisted cluster equals the requested one, in dataset row order,
truncated to the first five. -/
def recommend (rows : List StoredPlayer) (c : ℤ) : List StoredPlayer :=
  (rows.filter (fun r => r.cluster = c)).take 5

/-- C8: the recommendation lookup returns stored profiles whose
persisted cluster equals the requested id, as a subsequence of the
dataset (original row order), equal to the first five matches (a prefix
of the full match list, of length min 5 #matches); with at most five
matches it returns exactly the matching rows — no padding, no error. -/
theorem recommend_spec (rows : List StoredPlayer) (c : ℤ) :
    (recommend rows c).Sublist rows ∧
    (∀ r ∈ recommend rows c, r.cluster = c) ∧
    (recommend rows c).length =
      min 5 (rows.filter (fun r => r.cluster = c)).length ∧
    (recommend rows c) <+: rows.filter (fun r => r.cluster = c) ∧
    ((rows.filter (fun r => r.cluster = c)).length ≤ 5 →
      recommend rows c = rows.filter (fun r => r.cluster = c)) := by
  refine ⟨?_, ?_, ?_, ?_, ?_⟩
  · exact (List.take_sublist 5 _).trans (List.filter_sublist rows)
  · intro r hr
    have hf : r ∈ rows.filter (fun r => r.cluster = c) :=
      List.mem_of_mem_take hr
    simpa using List.of_mem_filter hf
  · exact List.length_take 5 _
  · exact List.take_prefix 5 _
  · intro hle
    exact List.take_of_length_le hle

/-- C8 with only two matching stored profiles: the lookup returns
exactly those two, in row order. -/
theorem recommend_spec_witness :
    (([⟨"p1", "beginner", 0, 0, 2⟩, ⟨"p2", "recreational", 0, 0, 1⟩,
       ⟨"p3", "professional", 0, 0, 2⟩] : List StoredPlayer).filter
        (fun r => r.cluster = 2)).length ≤ 5 ∧
    recommend [⟨"p1", "beginner", 0, 0, 2⟩, ⟨"p2", "recreational", 0, 0, 1⟩,
       ⟨"p3", "professional", 0, 0, 2⟩] 2 =
      [⟨"p1", "beginner", 0, 0, 2⟩, ⟨"p3", "professional", 0, 0, 2⟩] := by
  refine ⟨by decide, ?_⟩
  have := (recommend_spec [⟨"p1", "beginner", 0, 0, 2⟩,
    ⟨"p2", "recreational", 0, 0, 1⟩,
    ⟨"p3", "professional", 0, 0, 2⟩] 2).2.2.2.2 (by decide)
  rw [this]
  decide

/-! ## Degraded cluster file (src/api2.py) -/

/-- The fallback of src/api2.py lines 17–22: when
`player_clusters.json` fails to load, the whole `cluster` column of the
stored dataset is set to −1. -/
def degradeClusters (rows : List StoredPlayer) : List StoredPlayer :=
  rows.map (fun r => { r with cluster := -1 })

/-- The `/cluster-player` endpoint of src/api2.py lines 36–73: encode,
scale, predict, then look up the top-5 stored players of the predicted
cluster; on success it answers with the cluster id and the
recommendation list. -/
def clusterPlayerRec (b : Bundle) (stored : List StoredPlayer)
    (p : Profile) : Except String (Nat × List StoredPlayer) := do
  let scaled ← transformChecked b.mean b.std (assembleServe p b.vocab)
  let c ← predictChecked b.centroids scaled
  pure (c, recommend stored (c : ℤ))

/-- The assignment index is always a valid centroid index. -/
lemma assign_lt (v : List ℚ) (cs : List (List ℚ)) (h : cs ≠ []) :
    assign v cs < cs.length := by
  have hne : cs.map (sqDist v) ≠ [] := fun hc => h (List.map_eq_nil_iff.mp hc)
  have := (listArgmin_spec (cs.map (sqDist v)) hne).1
  rwa [List.length_map] at this

/-- Recommendations over a degraded dataset are empty for every
non-negative requested cluster. -/
lemma recommend_degraded (base : List StoredPlayer) (n : Nat) :
    recommend (degradeClusters base) (n : ℤ) = [] := by
  unfold recommend
  have : (degradeClusters base).filter (fun r => r.cluster = (n : ℤ)) = [] := by
    rw [List.filter_eq_nil_iff]
    intro r hr
    rcases List.mem_map.mp hr with ⟨x, _, hx⟩
    have hcl : r.cluster = -1 := by rw [← hx]
    simp only [decide_eq_true_eq, hcl]
    omega
  rw [this]
  rfl

/-- C9: when the persisted id-to-cluster mapping failed to load, every
stored row carries cluster −1; the predicted cluster of any successful
request is a centroid index in 0..k-1, hence never −1, so the
recommendation list in the response is empty — and the request itself
still succeeds (no error). -/
theorem degraded_recommendations_empty (b : Bundle)
    (base : List StoredPlayer) (p : Profile) (c : Nat)
    (recs : List StoredPlayer)
    (h : clusterPlayerRec b (degradeClusters base) p = Except.ok (c, recs)) :
    recs = [] ∧ c < b.centroids.length := by
  unfold clusterPlayerRec transformChecked predictChecked at h
  by_cases h1 : (assembleServe p b.vocab).length = b.mean.length ∧
      (assembleServe p b.vocab).length = b.std.length
  · rw [if_pos h1] at h
    simp only [Bind.bind, Except.bind] at h
    by_cases h2 : b.centroids ≠ [] ∧ ∀ cc ∈ b.centroids,
        cc.length = (transform (assembleServe p b.vocab) b.mean b.std).length
    · rw [if_pos h2] at h
      have h' : (assign (transform (assembleServe p b.vocab) b.mean b.std)
          b.centroids, recommend (degradeClusters base)
            ((assign (transform (assembleServe p b.vocab) b.mean b.std)
              b.centroids : Nat) : ℤ)) = (c, recs) := by
        simpa [Bind.bind, Except.bind, pure, Except.pure] using h
      rcases Prod.mk.injEq .. |>.mp h' with ⟨hc, hrecs⟩
      constructor
      · rw [← hrecs, recommend_degraded]
      · rw [← hc]
        exact assign_lt _ _ h2.1
    · rw [if_neg h2] at h
      exact absurd h (by simp [Bind.bind, Except.bind])
  · rw [if_neg h1] at h
    exact absurd h (by simp [Bind.bind, Except.bind])

/-- A minimal consistent bundle: empty vocabularies (feature width 4),
zero mean/std and a single zero centroid. -/
def miniBundle : Bundle :=
  ⟨⟨[], [], []⟩, [0, 0, 0, 0], [0, 0, 0, 0], [[0, 0, 0, 0]]⟩

/-- A minimal valid profile. -/
def miniProfile : Profile :=
  ⟨"beginner", none, none, none, [], [], []⟩

/-- C9 exercised end to end: over a degraded one-row dataset the
request succeeds with cluster 0 and an empty recommendation list. -/
theorem degraded_recommendations_empty_witness :
    clusterPlayerRec miniBundle
      (degradeClusters [⟨"p1", "beginner", 0, 0, 0⟩]) miniProfile =
        Except.ok (0, []) ∧
    ([] : List StoredPlayer) = [] ∧ 0 < miniBundle.centroids.length := by
  have hrun : clusterPlayerRec miniBundle
      (degradeClusters [⟨"p1", "beginner", 0, 0, 0⟩]) miniProfile =
        Except.ok (0, ([] : List StoredPlayer)) := by
    norm_num [clusterPlayerRec, transformChecked, predictChecked, transform,
      assembleServe, encodeMultiHot, levelServe, levels_map, List.lookup,
      assign, listArgmin, argLoop, sqDist, degradeClusters, recommend,
      miniBundle, miniProfile, featureLen,
      Bind.bind, Except.bind, pure, Except.pure]
  have := degraded_recommendations_empty miniBundle
    [⟨"p1", "beginner", 0, 0, 0⟩] miniProfile 0 [] hrun
  exact ⟨hrun, this.1, this.2⟩

/-! ## Batch endpoint (src/api2.py /cluster-all) -/

/-- A raw batch record as received by `/cluster-all`
(src/api2.py lines 92–127): every field may be absent; `id`,
`desiredServices`, `goals`, `languages` and `level` are accessed with
`player[...]` (a missing one raises KeyError), while `rank`,
`maxBudgetPerSession` and `travelDistance` use `.get(..., 0)`. -/
structure Record where
  id : Option String
  level : Option String
  rank : Option ℚ
  budget : Option ℚ
  travel : Option ℚ
  desiredServices : Option (List String)
  goals : Option (List String)
  languages : Option (List String)
  deriving Repr, DecidableEq

/-- `player[name]`: the value when present, KeyError otherwise. -/
def reqField {α : Type} (name : String) : Option α → Except String α
  | some a => Except.ok a
  | none => Except.error ("KeyError: " ++ name)

/-- Extraction of the required fields of one batch record, in the
access order of src/api2.py lines 100–105. -/
def toProfile (r : Record) : Except String Profile := do
  let sv ← reqField "desiredServices" r.desiredServices
  let gl ← reqField "goals" r.goals
  let lg ← reqField "languages" r.languages
  let lvl ← reqField "level" r.level
  pure ⟨lvl, r.rank, r.budget, r.travel, sv, gl, lg⟩

/-- One iteration of the `/cluster-all` loop (src/api2.py lines
98–123): extract the fields, run the encode–scale–predict pipeline,
read the record's `id`, and produce the `{id, cluster}` pair. -/
def step (b : Bundle) (r : Record) : Except String (String × Nat) := do
  let p ← toProfile r
  let c ← clusterPlayer b p
  let i ← reqField "id" r.id
  pure (i, c)

/-- The whole `/cluster-all` body (src/api2.py lines 94–127): the loop
accumulates pairs in input order inside one `try`, so the first raised
exception aborts the request, discarding every result computed so far. -/
def clusterAll (b : Bundle) : List Record → Except String (List (String × Nat))
  | [] => Except.ok []
  | r :: rs => do
      let x ← step b r
      let xs ← clusterAll b rs
      pure (x :: xs)

/-- C10: `/cluster-all` is all-or-nothing. On success the output pairs
correspond one-to-one, in order, to the input records (each produced by
the per-record step, which emits that record's id with its predicted
cluster); if the step fails on any record — e.g. a required field is
missing — the whole request returns a single error and none of the
earlier records' results. -/
theorem cluster_all_spec (b : Bundle) (ps : List Record) :
    (∀ rs, clusterAll b ps = Except.ok rs →
      List.Forall₂ (fun p r => step b p = Except.ok r) ps rs) ∧
    ((∃ p ∈ ps, ∃ e, step b p = Except.error e) →
      ∃ e, clusterAll b ps = Except.error e) := by
  constructor
  · induction ps with
    | nil =>
        intro rs h
        have : rs = [] := by
          simpa [clusterAll] using h.symm
        subst this
        exact List.Forall₂.nil
    | cons r rest ih =>
        intro rs h
        unfold clusterAll at h
        cases hstep : step b r with
        | error e =>
            rw [hstep] at h
            exact absurd h (by simp [Bind.bind, Except.bind])
        | ok x =>
            rw [hstep] at h
            cases hrest : clusterAll b rest with
            | error e =>
                rw [hrest] at h
                exact absurd h (by simp [Bind.bind, Except.bind])
            | ok xs =>
                rw [hrest] at h
                have : x :: xs = rs := by
                  simpa [Bind.bind, Except.bind, pure, Except.pure] using h
                subst this
                exact List.Forall₂.cons hstep (ih xs hrest)
  · induction ps with
    | nil =>
        rintro ⟨p, hp, _⟩
        exact absurd hp (List.not_mem_nil p)
    | cons r rest ih =>
        rintro ⟨p, hp, e, he⟩
        rcases List.mem_cons.mp hp with hpr | hpr
        · subst hpr
          refine ⟨e, ?_⟩
          unfold clusterAll
          rw [he]
          rfl
        · rcases ih ⟨p, hpr, e, he⟩ with ⟨e', he'⟩
          cases hstep : step b r with
          | error e'' =>
              refine ⟨e'', ?_⟩
              unfold clusterAll
              rw [hstep]
              rfl
          | ok x =>
              refine ⟨e', ?_⟩
              unfold clusterAll
              rw [hstep, he']
              rfl

/-- A well-formed batch record for `miniBundle`. -/
def goodRecord : Record :=
  ⟨some "g", some "beginner", none, none, none, some [], some [], some []⟩

/-- A batch record missing the required `desiredServices` field. -/
def badRecord : Record :=
  ⟨some "bad", some "beginner", none, none, none, none, some [], some []⟩

/-- C10 exercised: a singleton good batch succeeds pairing the record
with its id and cluster, and a batch whose second record misses
`desiredServices` makes the whole request error even though the first
record on its own succeeds. -/
theorem cluster_all_spec_witness :
    List.Forall₂ (fun p r => step miniBundle p = Except.ok r)
      [goodRecord] [("g", 0)] ∧
    step miniBundle goodRecord = Except.ok ("g", 0) ∧
    (∃ e, clusterAll miniBundle [goodRecord, badRecord] = Except.error e) := by
  have hgood : step miniBundle goodRecord = Except.ok ("g", 0) := by
    norm_num [step, toProfile, reqField, goodRecord, clusterPlayer,
      transformChecked, predictChecked, transform, assembleServe,
      encodeMultiHot, levelServe, levels_map, List.lookup, assign,
      listArgmin, argLoop, sqDist, miniBundle, featureLen,
      Bind.bind, Except.bind, pure, Except.pure]
  refine ⟨?_, hgood, ?_⟩
  · apply (cluster_all_spec miniBundle [goodRecord]).1
    simp [clusterAll, hgood, Bind.bind, Except.bind, pure, Except.pure]
  · exact (cluster_all_spec miniBundle [goodRecord, badRecord]).2
      ⟨badRecord, by simp, "KeyError: desiredServices", rfl⟩

/-! ## KMeans training (src/train.py lines 49–50)

Modelled from the spec: `KMeans(n_clusters=4, random_state=42)` /
`fit_predict(X_scaled)` run Lloyd's algorithm, which is not part of
src/. Spec §4.4: iterate (a) assign every row to the centroid
minimizing squared Euclidean distance, ties broken by lowest index,
(b) recompute each centroid as the mean of its assigned rows, keeping
its previous position when no row is assigned to it. The training
matrix is n×d, so rows and centroids are fixed-width vectors
`Fin d → ℚ`. -/

/-- Squared Euclidean distance on fixed-width vectors. -/
def sqDistF {d : Nat} (x y : Fin d → ℚ) : ℚ :=
  ∑ i, (x i - y i) ^ 2

/-- The all-zero vector (only ever used as an out-of-range default). -/
def zeroVec (d : Nat) : Fin d → ℚ :=
  fun _ => 0

/-- Lloyd assignment step for one row: index of the nearest centroid,
first occurrence on ties (same argmin as serving). -/
def assignF {d : Nat} (v : Fin d → ℚ) (cs : List (Fin d → ℚ)) : Nat :=
  listArgmin (cs.map (sqDistF v))

/-- Coordinatewise mean of a list of vectors. -/
def meanVec {d : Nat} (xs : List (Fin d → ℚ)) : Fin d → ℚ :=
  fun i => (xs.map (fun x => x i)).sum / (xs.length : ℚ)

/-- One Lloyd iteration: reassign all rows, then move every centroid to
the mean of its assigned rows (a centroid with no assigned rows keeps
its previous position). -/
def lloydStep {d : Nat} (rows cs : List (Fin d → ℚ)) : List (Fin d → ℚ) :=
  (List.range cs.length).map (fun j =>
    if rows.filter (fun r => assignF r cs = j) = [] then cs.getD j (zeroVec d)
    else meanVec (rows.filter (fun r => assignF r cs = j)))

/-- Total within-cluster squared distance of a centroid configuration:
every row contributes its squared distance to its assigned (nearest)
centroid. -/
def wcss {d : Nat} (rows cs : List (Fin d → ℚ)) : ℚ :=
  (rows.map (fun r => sqDistF r (cs.getD (assignF r cs) (zeroVec d)))).sum

/-- `getD` through `map`, at an in-range index. -/
lemma getD_map_of_lt {α β : Type} (f : α → β) (l : List α) (da : α)
    (db : β) (j : Nat) (hj : j < l.length) :
    (l.map f).getD j db = f (l.getD j da) := by
  rw [List.getD_eq_getElem?_getD, List.getD_eq_getElem?_getD,
    List.getElem?_map, List.getElem?_eq_getElem hj]
  rfl

/-- The Lloyd assignment is a valid centroid index. -/
lemma assignF_lt {d : Nat} (v : Fin d → ℚ) (cs : List (Fin d → ℚ))
    (h : cs ≠ []) : assignF v cs < cs.length := by
  have hne : cs.map (sqDistF v) ≠ [] := fun hc => h (List.map_eq_nil_iff.mp hc)
  have := (listArgmin_spec _ hne).1
  rwa [List.length_map] at this

/-- The Lloyd assignment minimizes the distance to the centroids. -/
lemma assignF_min {d : Nat} (v : Fin d → ℚ) (cs : List (Fin d → ℚ))
    (h : cs ≠ []) (j : Nat) (hj : j < cs.length) :
    sqDistF v (cs.getD (assignF v cs) (zeroVec d)) ≤
      sqDistF v (cs.getD j (zeroVec d)) := by
  have hne : cs.map (sqDistF v) ≠ [] := fun hc => h (List.map_eq_nil_iff.mp hc)
  have h2 := (listArgmin_spec _ hne).2.1 j (by rw [List.length_map]; exact hj)
  unfold assignF
  rwa [getD_map_of_lt (sqDistF v) cs (zeroVec d) 0 _
      (by rw [← List.length_map cs (sqDistF v)]; exact (listArgmin_spec _ hne).1),
    getD_map_of_lt (sqDistF v) cs (zeroVec d) 0 j hj] at h2

/-- Sum of squared deviations around an arbitrary point, in terms of the
deviations around any reference point `m`. -/
lemma sum_sq_sub_identity (ys : List ℚ) (m c : ℚ) :
    (ys.map (fun y => (y - c) ^ 2)).sum =
      (ys.map (fun y => (y - m) ^ 2)).sum +
        (m - c) * (2 * ys.sum - (ys.length : ℚ) * (c + m)) := by
  induction ys with
  | nil => simp
  | cons y ys ih =>
      simp only [List.map_cons, List.sum_cons, List.length_cons, ih]
      push_cast
      ring

/-- The mean of a list minimizes its sum of squared deviations. -/
lemma sum_sq_dev_mean_le (ys : List ℚ) (h : ys ≠ []) (c : ℚ) :
    (ys.map (fun y => (y - ys.sum / (ys.length : ℚ)) ^ 2)).sum ≤
      (ys.map (fun y => (y - c) ^ 2)).sum := by
  have hn : (0 : ℚ) < (ys.length : ℚ) := by
    exact_mod_cast List.length_pos.mpr h
  set m := ys.sum / (ys.length : ℚ) with hm
  have hsum : ys.sum = m * (ys.length : ℚ) := by
    rw [hm, div_mul_cancel₀ _ (ne_of_gt hn)]
  rw [sum_sq_sub_identity ys m c, hsum]
  have hkey : (m - c) * (2 * (m * (ys.length : ℚ)) - (ys.length : ℚ) * (c + m)) =
      (ys.length : ℚ) * (m - c) ^ 2 := by ring
  rw [hkey]
  have : (0 : ℚ) ≤ (ys.length : ℚ) * (m - c) ^ 2 :=
    mul_nonneg (le_of_lt hn) (sq_nonneg _)
  linarith

/-- Exchanging a list sum with a finite sum over coordinates. -/
lemma list_sum_finset_sum_comm {α : Type} {d : Nat} (xs : List α)
    (f : α → Fin d → ℚ) :
    (xs.map (fun x => ∑ i, f x i)).sum = ∑ i, (xs.map (fun x => f x i)).sum := by
  induction xs with
  | nil => simp
  | cons x xs ih =>
      simp only [List.map_cons, List.sum_cons, ih]
      rw [← Finset.sum_add_distrib]

/-- The coordinatewise mean of a nonempty list of vectors minimizes the
total squared Euclidean distance to the list. -/
lemma sum_sqDistF_meanVec_le {d : Nat} (xs : List (Fin d → ℚ))
    (h : xs ≠ []) (c : Fin d → ℚ) :
    (xs.map (fun x => sqDistF x (meanVec xs))).sum ≤
      (xs.map (fun x => sqDistF x c)).sum := by
  unfold sqDistF
  rw [list_sum_finset_sum_comm xs (fun x i => (x i - meanVec xs i) ^ 2),
    list_sum_finset_sum_comm xs (fun x i => (x i - c i) ^ 2)]
  refine Finset.sum_le_sum fun i _ => ?_
  have hmap : ∀ (m : ℚ), xs.map (fun x => (x i - m) ^ 2) =
      (xs.map (fun x => x i)).map (fun y => (y - m) ^ 2) := by
    intro m
    rw [List.map_map]
    rfl
  rw [hmap (meanVec xs i), hmap (c i)]
  have hne : xs.map (fun x => x i) ≠ [] :=
    fun hc => h (List.map_eq_nil_iff.mp hc)
  have hmean : meanVec xs i =
      (xs.map (fun x => x i)).sum / (((xs.map (fun x => x i)).length : ℚ)) := by
    unfold meanVec
    rw [List.length_map]
  rw [hmean]
  exact sum_sq_dev_mean_le (xs.map (fun x => x i)) hne (c i)

/-- Regrouping a list sum by the (bounded) label of each element. -/
lemma sum_map_eq_sum_filter_range {α : Type} (rows : List α) (f : α → Nat)
    (g : α → ℚ) (k : Nat) (hf : ∀ r ∈ rows, f r < k) :
    (rows.map g).sum =
      ∑ j ∈ Finset.range k, ((rows.filter (fun r => f r = j)).map g).sum := by
  induction rows with
  | nil => simp
  | cons a l ih =>
      have hfa : f a < k := hf a (List.mem_cons_self a l)
      have hrest : ∀ r ∈ l, f r < k := fun r hr => hf r (List.mem_cons_of_mem a hr)
      have hsplit : ∀ j ∈ Finset.range k,
          (((a :: l).filter (fun r => f r = j)).map g).sum =
            (if f a = j then g a else 0) +
              ((l.filter (fun r => f r = j)).map g).sum := by
        intro j _
        rw [List.filter_cons]
        by_cases hj : f a = j
        · simp [hj]
        · simp [hj]
      rw [List.map_cons, List.sum_cons, ih hrest,
        Finset.sum_congr rfl hsplit, Finset.sum_add_distrib,
        Finset.sum_ite_eq (Finset.range k) (f a) (fun _ => g a),
        if_pos (Finset.mem_range.mpr hfa)]

/-- Every member of a cluster's filtered row list carries that label. -/
lemma mem_filter_label {d : Nat} (rows cs : List (Fin d → ℚ)) (j : Nat)
    (r : Fin d → ℚ) (hr : r ∈ rows.filter (fun r => assignF r cs = j)) :
    assignF r cs = j := by
  simpa using List.of_mem_filter hr

/-- The updated centroid list evaluated at a valid index. -/
lemma lloydStep_getD {d : Nat} (rows cs : List (Fin d → ℚ)) (j : Nat)
    (hj : j < cs.length) :
    (lloydStep rows cs).getD j (zeroVec d) =
      (if rows.filter (fun r => assignF r cs = j) = [] then cs.getD j (zeroVec d)
       else meanVec (rows.filter (fun r => assignF r cs = j))) := by
  unfold lloydStep
  rw [getD_map_of_lt _ (List.range cs.length) 0 (zeroVec d) j
      (by rw [List.length_range]; exact hj)]
  rw [List.getD_eq_getElem?_getD, List.getElem?_range hj]
  rfl

/-- Update step does not increase the labelled cost: moving each
centroid to the mean of its assigned rows (or keeping it when the
cluster is empty) can only lower the total distance of rows to their
assigned centroid. -/
lemma update_le {d : Nat} (rows cs : List (Fin d → ℚ)) (h : cs ≠ []) :
    (rows.map (fun r =>
      sqDistF r ((lloydStep rows cs).getD (assignF r cs) (zeroVec d)))).sum ≤
      (rows.map (fun r => sqDistF r (cs.getD (assignF r cs) (zeroVec d)))).sum := by
  have hf : ∀ r ∈ rows, assignF r cs < cs.length :=
    fun r _ => assignF_lt r cs h
  rw [sum_map_eq_sum_filter_range rows (fun r => assignF r cs)
      (fun r => sqDistF r ((lloydStep rows cs).getD (assignF r cs) (zeroVec d)))
      cs.length hf,
    sum_map_eq_sum_filter_range rows (fun r => assignF r cs)
      (fun r => sqDistF r (cs.getD (assignF r cs) (zeroVec d)))
      cs.length hf]
  refine Finset.sum_le_sum fun j hjmem => ?_
  have hj : j < cs.length := Finset.mem_range.mp hjmem
  have hlab : ∀ r ∈ rows.filter (fun r => assignF r cs = j),
      assignF r cs = j := fun r hr => mem_filter_label rows cs j r hr
  have hleft : ((rows.filter (fun r => assignF r cs = j)).map
      (fun r => sqDistF r ((lloydStep rows cs).getD (assignF r cs) (zeroVec d)))).sum =
      ((rows.filter (fun r => assignF r cs = j)).map
        (fun r => sqDistF r ((lloydStep rows cs).getD j (zeroVec d)))).sum := by
    refine congrArg List.sum (List.map_congr_left ?_)
    intro r hr
    rw [hlab r hr]
  have hright : ((rows.filter (fun r => assignF r cs = j)).map
      (fun r => sqDistF r (cs.getD (assignF r cs) (zeroVec d)))).sum =
      ((rows.filter (fun r => assignF r cs = j)).map
        (fun r => sqDistF r (cs.getD j (zeroVec d)))).sum := by
    refine congrArg List.sum (List.map_congr_left ?_)
    intro r hr
    rw [hlab r hr]
  rw [hleft, hright, lloydStep_getD rows cs j hj]
  by_cases hempty : rows.filter (fun r => assignF r cs = j) = []
  · rw [if_pos hempty, hempty]
  · rw [if_neg hempty]
    exact sum_sqDistF_meanVec_le _ hempty (cs.getD j (zeroVec d))

/-- Reassignment step does not increase the cost: against the new
centroids, letting every row go to its nearest new centroid is at most
keeping its old label. -/
lemma reassign_le {d : Nat} (rows cs : List (Fin d → ℚ)) (h : cs ≠ []) :
    wcss rows (lloydStep rows cs) ≤
      (rows.map (fun r =>
        sqDistF r ((lloydStep rows cs).getD (assignF r cs) (zeroVec d)))).sum := by
  have hlen : (lloydStep rows cs).length = cs.length := by
    unfold lloydStep
    rw [List.length_map, List.length_range]
  have hnew : lloydStep rows cs ≠ [] := by
    intro hc
    rw [hc] at hlen
    exact h (List.length_eq_zero.mp hlen.symm)
  unfold wcss
  refine List.sum_le_sum fun r _ => ?_
  exact assignF_min r (lloydStep rows cs) hnew (assignF r cs)
    (by rw [hlen]; exact assignF_lt r cs h)

/-- C3: one full Lloyd iteration (reassign rows to nearest centroids,
then recompute each centroid as the mean of its assigned rows, empty
clusters keeping their centroid) never increases the total
within-cluster squared distance, for every row matrix and every
(seed-dependent) current centroid configuration. -/
theorem kmeans_wcss_monotone {d : Nat} (rows cs : List (Fin d → ℚ))
    (h : cs ≠ []) :
    wcss rows (lloydStep rows cs) ≤ wcss rows cs := by
  calc wcss rows (lloydStep rows cs)
      ≤ (rows.map (fun r =>
          sqDistF r ((lloydStep rows cs).getD (assignF r cs) (zeroVec d)))).sum :=
        reassign_le rows cs h
    _ ≤ (rows.map (fun r =>
          sqDistF r (cs.getD (assignF r cs) (zeroVec d)))).sum :=
        update_le rows cs h
    _ = wcss rows cs := rfl

/-- A concrete 1-dimensional row. -/
def rowTwo : Fin 1 → ℚ :=
  fun _ => 2

/-- A concrete 1-dimensional centroid. -/
def centZero : Fin 1 → ℚ :=
  fun _ => 0

/-- C3 at a concrete configuration: one row at 2 with one centroid at 0;
the Lloyd iteration does not increase the total within-cluster cost. -/
theorem kmeans_wcss_monotone_witness :
    ([centZero] ≠ []) ∧
    wcss [rowTwo] (lloydStep [rowTwo] [centZero]) ≤ wcss [rowTwo] [centZero] :=
  ⟨by simp, kmeans_wcss_monotone [rowTwo] [centZero] (by simp)⟩

end GroupCluster
